import Mathlib

/-!
Verification of the versioned attribute data store contract of the grr
repository. The storage core itself (`grr/lib/data_store.py`) is not among
the sources; only its conformance test suite
(`grr/lib/data_store_test.py`) is. The definitions below are therefore
modelled from the specification's words, and the theorems check the
specification's claims against that model.
-/

namespace Grr

/-- Modelled from the spec: a single cell of the versioned attribute store,
a `(subject, predicate, timestamp, value)` tuple. `timestamp` is a signed
integer (microseconds since epoch by convention; `0` is a valid, distinct
version). The concrete cell representation lives in the missing
`data_store.py`. -/
structure Cell where
  subject : String
  predicate : String
  timestamp : Int
  value : String
deriving DecidableEq, Repr

/-- Modelled from the spec: the state of the store is the collection of its
cells (the order of the list is incidental: it records write order, which
reads must not depend on). -/
def DataStore := List Cell

/-- The identifying key of a cell: the spec's invariant is that no two
cells share `(subject, predicate, timestamp)`. -/
def CellKey (c : Cell) : String × String × Int :=
  (c.subject, c.predicate, c.timestamp)

/-- A store satisfying the spec's uniqueness invariant: no two cells share
`(subject, predicate, timestamp)`. -/
def WellFormed (db : List Cell) : Prop :=
  db.Pairwise (fun a b => CellKey a ≠ CellKey b)

instance (db : List Cell) : Decidable (WellFormed db) :=
  inferInstanceAs (Decidable (db.Pairwise _))

/-- Modelled from the spec: the timestamp selector of the read operations,
`NEWEST_TIMESTAMP`, `ALL_TIMESTAMPS` or an inclusive `(start, end)` range. -/
inductive TimestampSpec where
  | newest
  | all
  | range (first last : Int)
deriving DecidableEq, Repr

/-- All stored versions of one predicate of one subject, in store order. -/
def VersionsOf (db : List Cell) (s p : String) : List Cell :=
  db.filter (fun c => c.subject == s && c.predicate == p)

/-- The newest stored version of a predicate, if any. -/
def NewestVersion (db : List Cell) (s p : String) : Option (String × Int) :=
  (VersionsOf db s p).foldl
    (fun acc c =>
      match acc with
      | none => some (c.value, c.timestamp)
      | some (v, t) => if t < c.timestamp then some (c.value, c.timestamp) else some (v, t))
    none

/-- Modelled from the spec: `Resolve(subject, predicate)` returns the newest
version, or the `(None, 0)` sentinel if absent (absence is a normal outcome,
never a raised error). -/
def Resolve (db : List Cell) (s p : String) : Option String × Int :=
  match NewestVersion db s p with
  | some (v, t) => (some v, t)
  | none => (none, 0)

/-- Is `q` a prefix of the name `p`? Stated over the character lists, the
string's content. -/
def IsNamePrefix (q p : String) : Bool :=
  q.data.isPrefixOf p.data

/-- Does any of the requested name starts match the predicate's name? -/
def MatchesAny (pres : List String) (p : String) : Bool :=
  pres.any (fun q => IsNamePrefix q p)

/-- The cells of `db` under subject `s` whose predicate starts with one of
the requested name starts. -/
def MatchingCells (db : List Cell) (s : String) (pres : List String) : List Cell :=
  db.filter (fun c => c.subject == s && MatchesAny pres c.predicate)

/-- Scalar-value lexicographic comparison of names (as character lists):
the order in which prefix reads sort predicate names. -/
def NameLE : List Char → List Char → Bool
  | [], _ => true
  | _ :: _, [] => false
  | c :: cs, d :: ds =>
      if c.toNat < d.toNat then true
      else if d.toNat < c.toNat then false
      else NameLE cs ds

/-- One unfolding step of `NameLE` on two non-empty names. -/
theorem NameLE_cons_iff {a b : Char} {as bs : List Char} :
    NameLE (a :: as) (b :: bs) = true ↔
      a.toNat < b.toNat ∨ (a.toNat = b.toNat ∧ NameLE as bs = true) := by
  rw [NameLE]
  split_ifs with h1 h2
  · simp only [true_iff]
    exact Or.inl h1
  · simp only [Bool.false_eq_true, false_iff]
    rintro (h | ⟨he, _⟩)
    · exact h1 h
    · omega
  · have he : a.toNat = b.toNat := by omega
    simp [he]

/-- `NameLE` is total. -/
theorem NameLE_total : ∀ a b : List Char, NameLE a b = true ∨ NameLE b a = true := by
  intro a
  induction a with
  | nil => intro b; exact Or.inl rfl
  | cons c cs ih =>
    intro b
    cases b with
    | nil => exact Or.inr rfl
    | cons d ds =>
      rcases Nat.lt_trichotomy c.toNat d.toNat with h | h | h
      · exact Or.inl (NameLE_cons_iff.mpr (Or.inl h))
      · rcases ih ds with h2 | h2
        · exact Or.inl (NameLE_cons_iff.mpr (Or.inr ⟨h, h2⟩))
        · exact Or.inr (NameLE_cons_iff.mpr (Or.inr ⟨h.symm, h2⟩))
      · exact Or.inr (NameLE_cons_iff.mpr (Or.inl h))

/-- `NameLE` is transitive. -/
theorem NameLE_trans : ∀ a b c : List Char,
    NameLE a b = true → NameLE b c = true → NameLE a c = true := by
  intro a
  induction a with
  | nil => intro b c _ _; rfl
  | cons x xs ih =>
    intro b c hab hbc
    cases b with
    | nil => exact Bool.noConfusion hab
    | cons y ys =>
      cases c with
      | nil => exact Bool.noConfusion hbc
      | cons z zs =>
        rcases NameLE_cons_iff.mp hab with h1 | ⟨h1, h1t⟩ <;>
          rcases NameLE_cons_iff.mp hbc with h2 | ⟨h2, h2t⟩
        · exact NameLE_cons_iff.mpr (Or.inl (by omega))
        · exact NameLE_cons_iff.mpr (Or.inl (by omega))
        · exact NameLE_cons_iff.mpr (Or.inl (by omega))
        · exact NameLE_cons_iff.mpr (Or.inr ⟨by omega, ih ys zs h1t h2t⟩)

/-- `NameLE` is antisymmetric. -/
theorem NameLE_antisymm : ∀ a b : List Char,
    NameLE a b = true → NameLE b a = true → a = b := by
  intro a
  induction a with
  | nil =>
    intro b hab hba
    cases b with
    | nil => rfl
    | cons d ds => exact Bool.noConfusion hba
  | cons x xs ih =>
    intro b hab hba
    cases b with
    | nil => exact Bool.noConfusion hab
    | cons y ys =>
      rcases NameLE_cons_iff.mp hab with h1 | ⟨h1, h1t⟩ <;>
        rcases NameLE_cons_iff.mp hba with h2 | ⟨h2, h2t⟩
      · exact absurd h2 (by omega)
      · exact absurd h1 (by omega)
      · exact absurd h2 (by omega)
      · have hxy : x = y := Char.ext (UInt32.toNat.inj h1)
        rw [hxy, ih ys h1t h2t]

/-- Names with equal character lists are equal. -/
theorem name_eq_of_data_eq {a b : String} (h : a.data = b.data) : a = b := by
  cases a; cases b; exact congrArg String.mk h

/-- The order in which prefix reads return cells: by predicate name first,
and within one predicate by decreasing timestamp (newest first). -/
def CellLE (a b : Cell) : Prop :=
  (a.predicate = b.predicate ∧ b.timestamp ≤ a.timestamp) ∨
    (a.predicate ≠ b.predicate ∧ NameLE a.predicate.data b.predicate.data = true)

instance : DecidableRel CellLE := fun a b =>
  inferInstanceAs (Decidable
    ((a.predicate = b.predicate ∧ b.timestamp ≤ a.timestamp) ∨
      (a.predicate ≠ b.predicate ∧ NameLE a.predicate.data b.predicate.data = true)))

instance : IsTotal Cell CellLE where
  total a b := by
    by_cases hp : a.predicate = b.predicate
    · rcases le_total b.timestamp a.timestamp with ht | ht
      · exact Or.inl (Or.inl ⟨hp, ht⟩)
      · exact Or.inr (Or.inl ⟨hp.symm, ht⟩)
    · rcases NameLE_total a.predicate.data b.predicate.data with h | h
      · exact Or.inl (Or.inr ⟨hp, h⟩)
      · exact Or.inr (Or.inr ⟨fun e => hp e.symm, h⟩)

instance : IsTrans Cell CellLE where
  trans a b c hab hbc := by
    rcases hab with ⟨e1, t1⟩ | ⟨n1, l1⟩ <;> rcases hbc with ⟨e2, t2⟩ | ⟨n2, l2⟩
    · exact Or.inl ⟨e1.trans e2, le_trans t2 t1⟩
    · refine Or.inr ⟨fun h => n2 (e1.symm.trans h), ?_⟩
      have hd : a.predicate.data = b.predicate.data := by rw [e1]
      rw [hd]
      exact l2
    · refine Or.inr ⟨fun h => n1 (h.trans e2.symm), ?_⟩
      have hd : b.predicate.data = c.predicate.data := by rw [e2]
      rw [← hd]
      exact l1
    · refine Or.inr ⟨?_, NameLE_trans _ _ _ l1 l2⟩
      intro h
      have hd : a.predicate.data = c.predicate.data := by rw [h]
      have l2x : NameLE b.predicate.data a.predicate.data = true := by
        rw [hd]
        exact l2
      exact n1 (name_eq_of_data_eq (NameLE_antisymm _ _ l1 l2x))

/-- The newest cell of each predicate group: the first cell seen for each
predicate not seen before, every later cell of an already seen predicate
dropped. -/
def FirstPerPredicateAux (seen : List String) : List Cell → List Cell
  | [] => []
  | c :: rest =>
      if seen.contains c.predicate then FirstPerPredicateAux seen rest
      else c :: FirstPerPredicateAux (c.predicate :: seen) rest

/-- The newest cell of each predicate group: the first cell seen for each
predicate, every later cell of the same predicate dropped. -/
def FirstPerPredicate (l : List Cell) : List Cell :=
  FirstPerPredicateAux [] l

/-- Which cells of an already predicate-sorted, newest-first list a
timestamp selector keeps. -/
def SelectTimestamps : TimestampSpec → List Cell → List Cell
  | .all, l => l
  | .newest, l => FirstPerPredicate l
  | .range a b, l => l.filter (fun c => decide (a ≤ c.timestamp) && decide (c.timestamp ≤ b))

/-- Modelled from the spec: the shared core of `ResolvePrefix` and
`MultiResolvePrefix` for one subject and a list of predicate name starts:
matching cells sorted by predicate name with each predicate's versions in
decreasing timestamp order, then restricted by the timestamp selector, with
`limit` capping the number of returned `(predicate, value, timestamp)`
rows. -/
def ResolvePrefixMany (db : List Cell) (s : String) (pres : List String)
    (ts : TimestampSpec) (limit : Option Nat) : List (String × String × Int) :=
  let sorted := List.insertionSort CellLE (MatchingCells db s pres)
  let rows := (SelectTimestamps ts sorted).map (fun c => (c.predicate, c.value, c.timestamp))
  match limit with
  | none => rows
  | some k => rows.take k

/-- Modelled from the spec: `ResolvePrefix(subject, predicate_prefix,
timestamp, limit)` (missing with `data_store.py`). -/
def ResolvePrefix (db : List Cell) (s q : String) (ts : TimestampSpec)
    (limit : Option Nat) : List (String × String × Int) :=
  ResolvePrefixMany db s [q] ts limit

/-- Modelled from the spec: `MultiResolvePrefix(subjects, predicate_prefixes,
timestamp, limit)`: a mapping from subject to its rows, subjects with no
matching predicates omitted, `limit` a global cap consumed in subject
iteration order (missing with `data_store.py`). -/
def MultiResolvePrefix (db : List Cell) :
    List String → List String → TimestampSpec → Option Nat →
      List (String × List (String × String × Int))
  | [], _, _, _ => []
  | su :: rest, pres, ts, limit =>
      if limit = some 0 then []
      else
        let rows := ResolvePrefixMany db su pres ts limit
        let tail := MultiResolvePrefix db rest pres ts (limit.map (fun k => k - rows.length))
        if rows.isEmpty then tail else (su, rows) :: tail

/-- Modelled from the spec: `ResolveMulti(subject, predicates, limit)`
returns the newest version of each named predicate in input order, absent
predicates omitted (missing with `data_store.py`). -/
def ResolveMulti (db : List Cell) (s : String) (preds : List String)
    (limit : Option Nat) : List (String × String × Int) :=
  let rows := preds.filterMap (fun p => (NewestVersion db s p).map (fun vt => (p, vt.1, vt.2)))
  match limit with
  | none => rows
  | some k => rows.take k

/-- Modelled from the spec: `DeleteAttributes(subject, predicates, start,
end)` deletes every version of each named predicate whose timestamp lies in
the inclusive range `[start, end]` (missing with `data_store.py`). -/
def DeleteAttributes (db : List Cell) (s : String) (preds : List String)
    (first last : Int) : List Cell :=
  db.filter (fun c =>
    !(c.subject == s && preds.contains c.predicate &&
      decide (first ≤ c.timestamp) && decide (c.timestamp ≤ last)))

/-- Modelled from the spec: `MultiSet(subject, values, to_delete, replace)`.
`to_delete` first removes all versions of the named predicates; with
`replace = true` all prior versions of each written predicate are
superseded, with `replace = false` the new versions are added alongside the
existing history; a rewrite at an existing `(subject, predicate,
timestamp)` key supersedes that one cell, keeping the uniqueness invariant
(missing with `data_store.py`). -/
def MultiSet (db : List Cell) (s : String) (values : List (String × List (String × Int)))
    (toDelete : List String) (replace : Bool) : List Cell :=
  let afterDelete := db.filter (fun c => !(c.subject == s && toDelete.contains c.predicate))
  let written := values.map Prod.fst
  let afterReplace :=
    if replace then
      afterDelete.filter (fun c => !(c.subject == s && written.contains c.predicate))
    else afterDelete
  let newCells := (values.map (fun pv => pv.2.map (fun vt => Cell.mk s pv.1 vt.2 vt.1))).flatten
  let cleared := afterReplace.filter (fun c =>
    !(newCells.any (fun d =>
      d.subject == c.subject && d.predicate == c.predicate && d.timestamp == c.timestamp)))
  cleared ++ newCells

/-- Modelled from the spec: `Set(subject, predicate, value, timestamp,
replace)` writes one cell (missing with `data_store.py`). -/
def Set (db : List Cell) (s p v : String) (ts : Int) (replace : Bool) : List Cell :=
  MultiSet db s [(p, [(v, ts)])] [] replace

/-- Modelled from the spec: `ScanAttribute(subject_prefix, predicate,
after_urn, max_records)` enumerates, in ascending subject-name order, the
newest value of the predicate for every subject under the subject name
start, resuming strictly after `after_urn` when given (missing with
`data_store.py`). -/
def ScanAttribute (db : List Cell) (spre p : String) (afterUrn : Option String)
    (maxRecords : Option Nat) : List (String × Int × String) :=
  let subs := ((db.filter (fun c => IsNamePrefix spre c.subject && c.predicate == p)).map
    Cell.subject).dedup
  let subs := List.insertionSort (fun a b : String => a ≤ b) subs
  let subs := match afterUrn with
    | none => subs
    | some u => subs.filter (fun su => decide (u < su))
  let rows := subs.filterMap (fun su => (NewestVersion db su p).map (fun vt => (su, vt.2, vt.1)))
  match maxRecords with
  | none => rows
  | some k => rows.take k

/-- Does a read touching these predicates (or predicate name starts) need
the elevated "query" privilege? Exactly when one of them is
`index:`-namespaced. -/
def RequiresQuery (preds : List String) : Bool :=
  preds.any (fun p => IsNamePrefix "index:" p)

/-- Modelled from the spec: the access-control gate of the point and range
read operations. The injected security manager rejects an operation whose
access kind is forbidden: reads always need "r", and additionally "q" when
any requested predicate is `index:`-namespaced; if any requested predicate
requires an access the caller lacks, the whole call is denied (the checker
lives with the missing `data_store.py`). `forbidden` is the set of
forbidden access kinds, as in the conformance tests' mock security
manager. -/
def ReadDenied (forbidden : List Char) (preds : List String) : Bool :=
  forbidden.contains 'r' || (RequiresQuery preds && forbidden.contains 'q')

/-- `Resolve` behind the access-control gate: `AccessDenied` is an error,
never a partial result. -/
def ResolveChecked (forbidden : List Char) (db : List Cell) (s p : String) :
    Except Unit (Option String × Int) :=
  if ReadDenied forbidden [p] then .error () else .ok (Resolve db s p)

/-- `ResolveMulti` behind the access-control gate. -/
def ResolveMultiChecked (forbidden : List Char) (db : List Cell) (s : String)
    (preds : List String) (limit : Option Nat) :
    Except Unit (List (String × String × Int)) :=
  if ReadDenied forbidden preds then .error () else .ok (ResolveMulti db s preds limit)

/-- `ResolvePrefix` behind the access-control gate. -/
def ResolvePrefixChecked (forbidden : List Char) (db : List Cell) (s q : String)
    (ts : TimestampSpec) (limit : Option Nat) :
    Except Unit (List (String × String × Int)) :=
  if ReadDenied forbidden [q] then .error () else .ok (ResolvePrefix db s q ts limit)

/-- `MultiResolvePrefix` behind the access-control gate. -/
def MultiResolvePrefixChecked (forbidden : List Char) (db : List Cell)
    (subjects : List String) (pres : List String) (ts : TimestampSpec) (limit : Option Nat) :
    Except Unit (List (String × List (String × String × Int))) :=
  if ReadDenied forbidden pres then .error ()
  else .ok (MultiResolvePrefix db subjects pres ts limit)

/-- Modelled from the spec and the conformance tests: `ScanAttribute`
behind the access-control gate. Scans require the "query" privilege in
addition to "read" for every predicate, index-namespaced or not (the tests
`testScanAttributeRequiresReadAccess` and
`testScanAttributeRequiresQueryAccess` assert both denials for the
non-index predicate `aff4:hash`). -/
def ScanAttributeChecked (forbidden : List Char) (db : List Cell) (spre p : String)
    (afterUrn : Option String) (maxRecords : Option Nat) :
    Except Unit (List (String × Int × String)) :=
  if forbidden.contains 'r' || forbidden.contains 'q' then .error ()
  else .ok (ScanAttribute db spre p afterUrn maxRecords)

/-- Modelled from the spec: a held subject lock: its subject, the absolute
acquisition time and the absolute expiry timestamp (acquisition time plus
lease duration). The lock record lives with the missing `data_store.py`. -/
structure SubjectLock where
  subject : String
  acquiredAt : Int
  expires : Int
deriving DecidableEq, Repr

/-- Modelled from the spec: `DBSubjectLock(subject, lease_time)` at the
current time `now` against the table of live lock expiries: acquiring a
subject that has a live (non-expired) lock fails with `LockHeldError`; an
expired or absent lock is replaced, and the new lock's absolute expiry is
the attempt time plus its own lease duration (missing with
`data_store.py`). -/
def DBSubjectLock (locks : List (String × Int)) (s : String) (now lease : Int) :
    Except Unit (SubjectLock × List (String × Int)) :=
  match locks.lookup s with
  | some e =>
      if now < e then .error ()
      else .ok (⟨s, now, now + lease⟩, (s, now + lease) :: locks.eraseP (fun q => q.1 == s))
  | none => .ok (⟨s, now, now + lease⟩, (s, now + lease) :: locks)

/-- Modelled from the spec: `UpdateLease(new_duration)` sets the expiry
relative to the original acquisition time, not the current time (missing
with `data_store.py`). -/
def UpdateLease (lock : SubjectLock) (newDuration : Int) : SubjectLock :=
  { lock with expires := lock.acquiredAt + newDuration }

/-- Modelled from the spec: `CheckLease()` reports the current expiry minus
the current time (missing with `data_store.py`). -/
def CheckLease (lock : SubjectLock) (now : Int) : Int :=
  lock.expires - now

/-- Modelled from the spec: one operation a mutation pool can buffer
(missing with `data_store.py`). -/
inductive PoolOp where
  | set (s p v : String) (ts : Int) (replace : Bool)
  | multiSet (s : String) (values : List (String × List (String × Int)))
      (toDelete : List String) (replace : Bool)
  | deleteAttributes (s : String) (preds : List String) (first last : Int)
deriving Repr

/-- Issuing one buffered operation directly against the store. -/
def ApplyOp (db : List Cell) : PoolOp → List Cell
  | .set s p v ts r => Set db s p v ts r
  | .multiSet s vals td r => MultiSet db s vals td r
  | .deleteAttributes s ps a b => DeleteAttributes db s ps a b

/-- Modelled from the spec: the observable system state: the store and one
mutation pool's queued, not yet applied operations (missing with
`data_store.py`). -/
structure PoolState where
  db : List Cell
  pool : List PoolOp

/-- Modelled from the spec: queuing an operation on the mutation pool
buffers it without applying it to storage. -/
def Enqueue (st : PoolState) (op : PoolOp) : PoolState :=
  { st with pool := st.pool ++ [op] }

/-- The pool's flush loop: applies the queued operations one by one in
enqueue order. -/
def FlushOps : List PoolOp → List Cell → List Cell
  | [], db => db
  | op :: rest, db => FlushOps rest (ApplyOp db op)

/-- Modelled from the spec: `MutationPool.Flush()` applies all queued
operations to the store and empties the pool (missing with
`data_store.py`). -/
def Flush (st : PoolState) : PoolState :=
  { db := FlushOps st.pool st.db, pool := [] }

/-- Modelled from the spec's words for the refinement claim: the reference
behaviour `Flush` must match — issuing the same operations directly
against the `DataStore`, one at a time, in enqueue order. -/
def DirectApply (db : List Cell) (ops : List PoolOp) : List Cell :=
  ops.foldl ApplyOp db

/-- Modelled from the spec: the content-addressed blob table, a mapping
from content hash to stored bytes (missing with `data_store.py`). -/
def ReadBlob (blobs : List (String × String)) (h : String) : Option String :=
  blobs.lookup h

/-- Modelled from the spec: `BlobExists(hash)` signals absence through its
return value, never by raising (missing with `data_store.py`). -/
def BlobExists (blobs : List (String × String)) (h : String) : Bool :=
  (blobs.lookup h).isSome

/-- Modelled from the spec: `StoreBlob(bytes)` stores the blob under the
hash of its content (`hash` is the content-hash function, e.g. sha256 hex)
and returns that identifier; storing identical content again is an
idempotent no-op (missing with `data_store.py`). -/
def StoreBlob (blobs : List (String × String)) (hash : String → String)
    (data : String) : String × List (String × String) :=
  let h := hash data
  (h, if (blobs.lookup h).isSome then blobs else (h, data) :: blobs)

/-- C3: `DeleteAttributes(subject, [predicates], start, end)` deletes
exactly the versions of the named predicates whose timestamp lies in the
inclusive range `[start, end]` and leaves every other cell unchanged; with
`start = end` it deletes exactly the one version at that timestamp,
timestamp `0` included. -/
theorem DeleteAttributes_inclusive_range (db : List Cell) (s : String)
    (preds : List String) (first last : Int) :
    ∀ c : Cell, c ∈ DeleteAttributes db s preds first last ↔
      c ∈ db ∧
        ¬(c.subject = s ∧ c.predicate ∈ preds ∧ first ≤ c.timestamp ∧ c.timestamp ≤ last) := by
  intro c
  have hb : (!(c.subject == s && preds.contains c.predicate &&
      decide (first ≤ c.timestamp) && decide (c.timestamp ≤ last))) = true ↔
      ¬(c.subject = s ∧ c.predicate ∈ preds ∧ first ≤ c.timestamp ∧ c.timestamp ≤ last) := by
    simp only [Bool.not_eq_true', Bool.and_eq_false_iff, beq_eq_false_iff_ne, ne_eq,
      decide_eq_false_iff_not, List.contains, List.elem_eq_mem]
    tauto
  rw [DeleteAttributes, List.mem_filter, hb]

/-- In a list that is pairwise ordered by `CellLE` with pairwise distinct
keys and a single subject, the timestamps of any one predicate's cells are
strictly decreasing. -/
theorem pairwise_gt_of_sorted_distinct (s p : String) :
    ∀ l : List Cell,
      l.Pairwise (fun a b => CellLE a b ∧ CellKey a ≠ CellKey b) →
      (∀ c ∈ l, c.subject = s) →
      ((l.filter (fun c => c.predicate == p)).map Cell.timestamp).Pairwise (· > ·) := by
  intro l
  induction l with
  | nil => intro _ _; simp
  | cons c rest ih =>
    intro hp hs
    rcases List.pairwise_cons.mp hp with ⟨hhead, htail⟩
    have ihr := ih htail (fun d hd => hs d (List.mem_cons_of_mem _ hd))
    by_cases hc : (c.predicate == p) = true
    · simp only [List.filter_cons]
      rw [if_pos hc, List.map_cons]
      refine List.pairwise_cons.mpr ⟨?_, ihr⟩
      intro t ht
      rcases List.mem_map.mp ht with ⟨d, hd, rfl⟩
      rcases List.mem_filter.mp hd with ⟨hdr, hdp⟩
      rcases hhead d hdr with ⟨hle, hne⟩
      have hcp : c.predicate = p := beq_iff_eq.mp hc
      have hdp' : d.predicate = p := beq_iff_eq.mp hdp
      have hts : d.timestamp ≤ c.timestamp := by
        rcases hle with ⟨_, hts⟩ | ⟨hne2, _⟩
        · exact hts
        · exact absurd (hcp.trans hdp'.symm) hne2
      have hne' : c.timestamp ≠ d.timestamp := by
        intro heq
        exact hne (by
          simp only [CellKey, Prod.mk.injEq]
          exact ⟨(hs c (List.mem_cons_self _ _)).trans (hs d (List.mem_cons_of_mem _ hdr)).symm,
            hcp.trans hdp'.symm, heq⟩)
      exact lt_of_le_of_ne hts (fun h => hne' h.symm)
    · simp only [List.filter_cons]
      rw [if_neg hc]
      exact ihr

/-- The sorted matching cells of a well-formed store are pairwise ordered
by `CellLE` with pairwise distinct keys. -/
theorem sorted_matching_pairwise (db : List Cell) (s : String) (pres : List String)
    (hwf : WellFormed db) :
    (List.insertionSort CellLE (MatchingCells db s pres)).Pairwise
      (fun a b => CellLE a b ∧ CellKey a ≠ CellKey b) := by
  have h1 : (List.insertionSort CellLE (MatchingCells db s pres)).Pairwise CellLE :=
    List.sorted_insertionSort CellLE (MatchingCells db s pres)
  have h2 : (MatchingCells db s pres).Pairwise (fun a b => CellKey a ≠ CellKey b) :=
    List.Pairwise.sublist (List.filter_sublist db) hwf
  have h3 : (List.insertionSort CellLE (MatchingCells db s pres)).Pairwise
      (fun a b => CellKey a ≠ CellKey b) :=
    ((List.perm_insertionSort CellLE (MatchingCells db s pres)).pairwise_iff
      (fun h => Ne.symm h)).mpr h2
  exact h1.and h3

/-- Every cell of the sorted matching list carries the requested subject. -/
theorem sorted_matching_subject {db : List Cell} {s : String} {pres : List String}
    {c : Cell} (hc : c ∈ List.insertionSort CellLE (MatchingCells db s pres)) :
    c.subject = s := by
  have hm := (List.mem_insertionSort CellLE).mp hc
  have hcond := (List.mem_filter.mp hm).2
  exact beq_iff_eq.mp (Bool.and_eq_true_iff.mp hcond).1

/-- C1: for every well-formed store, subject and predicate name start,
`ResolvePrefix` with `ALL_TIMESTAMPS` returns, within each predicate group,
the timestamps in strictly decreasing order — independent of the store's
write order — and the returned rows are exactly the stored versions of the
matching predicates. -/
theorem ResolvePrefix_all_timestamps_decreasing (db : List Cell) (s q p : String)
    (hwf : WellFormed db) :
    (((ResolvePrefix db s q .all none).filter (fun r => r.1 == p)).map
        (fun r => r.2.2)).Pairwise (· > ·) ∧
    (∀ v ts, (p, v, ts) ∈ ResolvePrefix db s q .all none ↔
      (Cell.mk s p ts v ∈ db ∧ IsNamePrefix q p = true)) := by
  constructor
  · show (((( List.insertionSort CellLE (MatchingCells db s [q])).map
        (fun c => (c.predicate, c.value, c.timestamp))).filter (fun r => r.1 == p)).map
        (fun r => r.2.2)).Pairwise (· > ·)
    rw [List.filter_map, List.map_map]
    exact pairwise_gt_of_sorted_distinct s p _
      (sorted_matching_pairwise db s [q] hwf)
      (fun c hc => sorted_matching_subject hc)
  · intro v ts
    show (p, v, ts) ∈ (List.insertionSort CellLE (MatchingCells db s [q])).map
        (fun c => (c.predicate, c.value, c.timestamp)) ↔ _
    rw [List.mem_map]
    constructor
    · rintro ⟨c, hc, hfc⟩
      have hm := (List.mem_insertionSort CellLE).mp hc
      rcases List.mem_filter.mp hm with ⟨hdb, hcond⟩
      rcases Bool.and_eq_true_iff.mp hcond with ⟨hsub, hmat⟩
      have hs : c.subject = s := beq_iff_eq.mp hsub
      obtain ⟨hp, hv, ht⟩ : c.predicate = p ∧ c.value = v ∧ c.timestamp = ts := by
        injection hfc with h1 h2
        injection h2 with h2 h3
        exact ⟨h1, h2, h3⟩
      have hcell : c = Cell.mk s p ts v := by
        cases c
        simp_all
      refine ⟨hcell ▸ hdb, ?_⟩
      simp only [MatchesAny, List.any_cons, List.any_nil, Bool.or_false] at hmat
      exact hp ▸ hmat
    · rintro ⟨hdb, hpre⟩
      refine ⟨Cell.mk s p ts v, ?_, rfl⟩
      refine (List.mem_insertionSort CellLE).mpr (List.mem_filter.mpr ⟨hdb, ?_⟩)
      simp [MatchesAny, hpre]

/-- A name is a prefix of itself. -/
theorem IsNamePrefix_refl (p : String) : IsNamePrefix p p = true :=
  List.isPrefixOf_iff_prefix.mpr (List.prefix_refl _)

/-- A cell whose key differs from `(s, p, ts)` fails the new-cell key
test. -/
theorem beq_key_false {c : Cell} {s p : String} {ts : Int}
    (h : ¬(c.subject = s ∧ c.predicate = p ∧ c.timestamp = ts)) :
    (s == c.subject && p == c.predicate && ts == c.timestamp) = false := by
  cases hb : (s == c.subject && p == c.predicate && ts == c.timestamp) with
  | false => rfl
  | true =>
    rcases Bool.and_eq_true_iff.mp hb with ⟨hab, h3⟩
    rcases Bool.and_eq_true_iff.mp hab with ⟨h1, h2⟩
    exact absurd ⟨(beq_iff_eq.mp h1).symm, (beq_iff_eq.mp h2).symm, (beq_iff_eq.mp h3).symm⟩ h

/-- A cell that survived the filter dropping predicate `p` of subject `s`
is not a version of that predicate. -/
theorem not_key_of_filter_excluded {l : List Cell} {s p : String} {c : Cell}
    (hc : c ∈ l.filter (fun d => !(d.subject == s && List.contains [p] d.predicate))) :
    ¬(c.subject = s ∧ c.predicate = p) := by
  rcases List.mem_filter.mp hc with ⟨_, hcond⟩
  rintro ⟨h1, h2⟩
  rw [Bool.not_eq_true', Bool.and_eq_false_imp] at hcond
  have h3 := hcond (beq_iff_eq.mpr h1)
  rw [h2] at h3
  simp [List.contains] at h3

/-- A list without versions of `(s, p)` contributes nothing to
`VersionsOf`. -/
theorem filter_subject_predicate_nil {l : List Cell} {s p : String}
    (h : ∀ c ∈ l, ¬(c.subject = s ∧ c.predicate = p)) :
    l.filter (fun c => c.subject == s && c.predicate == p) = [] :=
  List.filter_eq_nil_iff.mpr (fun c hc hb => by
    rcases Bool.and_eq_true_iff.mp hb with ⟨h1, h2⟩
    exact h c hc ⟨beq_iff_eq.mp h1, beq_iff_eq.mp h2⟩)

/-- After a `replace = true` write of the single version `(v, ts)` of
predicate `p`, that cell is the predicate's entire stored history. -/
theorem VersionsOf_MultiSet_replace (db : List Cell) (s p v : String) (ts : Int) :
    VersionsOf (MultiSet db s [(p, [(v, ts)])] [] true) s p = [Cell.mk s p ts v] := by
  show (((db.filter (fun c => !(c.subject == s && List.contains [] c.predicate))).filter
      (fun c => !(c.subject == s && List.contains [p] c.predicate))).filter
      (fun c => !(List.any [Cell.mk s p ts v] (fun d =>
        d.subject == c.subject && d.predicate == c.predicate &&
          d.timestamp == c.timestamp))) ++ [Cell.mk s p ts v]).filter
      (fun c => c.subject == s && c.predicate == p) = [Cell.mk s p ts v]
  rw [List.filter_append]
  rw [filter_subject_predicate_nil
    (fun c hc => not_key_of_filter_excluded (List.mem_filter.mp hc).1)]
  simp

/-- Restricting the prefix-matching cells of `p` itself to the exact
predicate `p` gives exactly the predicate's stored versions. -/
theorem matching_filter_eq_versions (db : List Cell) (s p : String) :
    (MatchingCells db s [p]).filter (fun c => c.predicate == p) =
      VersionsOf db s p := by
  rw [MatchingCells, VersionsOf, List.filter_filter]
  apply List.filter_congr
  intro c _
  cases hpred : (c.predicate == p) with
  | false => simp [hpred]
  | true =>
    have hm : MatchesAny [p] c.predicate = true := by
      simp [MatchesAny, beq_iff_eq.mp hpred, IsNamePrefix_refl]
    simp [hpred, hm]

/-- C2: writing versions with `replace = false` adds them alongside the
existing history (at a fresh timestamp the store is exactly the old cells
plus the new one), and a subsequent single-version write with
`replace = true` supersedes all prior versions, so that reading the
predicate with `ALL_TIMESTAMPS` afterwards returns exactly the one newly
written `(value, timestamp)` pair. -/
theorem MultiSet_replace_semantics (db : List Cell) (s p v : String) (ts : Int) :
    ((∀ c ∈ db, ¬(c.subject = s ∧ c.predicate = p ∧ c.timestamp = ts)) →
      MultiSet db s [(p, [(v, ts)])] [] false = db ++ [Cell.mk s p ts v]) ∧
    ((ResolvePrefix (MultiSet db s [(p, [(v, ts)])] [] true) s p .all none).filter
        (fun r => r.1 == p) = [(p, v, ts)]) := by
  constructor
  · intro hfresh
    show (db.filter (fun c => !(c.subject == s && List.contains [] c.predicate))).filter
        (fun c => !(List.any [Cell.mk s p ts v] (fun d =>
          d.subject == c.subject && d.predicate == c.predicate &&
            d.timestamp == c.timestamp))) ++ [Cell.mk s p ts v] = db ++ [Cell.mk s p ts v]
    congr 1
    rw [List.filter_filter]
    apply List.filter_eq_self.mpr
    intro c hc
    simp only [List.any_cons, List.any_nil, Bool.or_false, List.contains_nil, Bool.and_false,
      Bool.not_false, Bool.and_true, Bool.not_eq_true']
    exact beq_key_false (hfresh c hc)
  · show ((List.insertionSort CellLE (MatchingCells
        (MultiSet db s [(p, [(v, ts)])] [] true) s [p])).map
        (fun c => (c.predicate, c.value, c.timestamp))).filter (fun r => r.1 == p) =
        [(p, v, ts)]
    rw [List.filter_map]
    have h0 : (List.insertionSort CellLE (MatchingCells
        (MultiSet db s [(p, [(v, ts)])] [] true) s [p])).filter
        (fun c => c.predicate == p) |>.Perm
        ((MatchingCells (MultiSet db s [(p, [(v, ts)])] [] true) s [p]).filter
        (fun c => c.predicate == p)) :=
      (List.perm_insertionSort CellLE _).filter _
    rw [matching_filter_eq_versions, VersionsOf_MultiSet_replace] at h0
    have h1 : (List.insertionSort CellLE (MatchingCells
        (MultiSet db s [(p, [(v, ts)])] [] true) s [p])).filter
        ((fun r : String × String × Int => r.1 == p) ∘
          (fun c => (c.predicate, c.value, c.timestamp))) = [Cell.mk s p ts v] :=
      List.perm_singleton.mp h0
    rw [h1]
    rfl

/-- C10: a `MultiSet` that names the same predicate both in its values and
in its `to_delete` list applies the deletion before the new values: after
the call exactly one version of the predicate exists, the one carrying the
value supplied in the same call — for either value of `replace`. -/
theorem MultiSet_to_delete_before_write (db : List Cell) (s p v : String) (ts : Int)
    (replace : Bool) :
    VersionsOf (MultiSet db s [(p, [(v, ts)])] [p] replace) s p = [Cell.mk s p ts v] := by
  cases replace with
  | true =>
    show (((db.filter (fun c => !(c.subject == s && List.contains [p] c.predicate))).filter
        (fun c => !(c.subject == s && List.contains [p] c.predicate))).filter
        (fun c => !(List.any [Cell.mk s p ts v] (fun d =>
          d.subject == c.subject && d.predicate == c.predicate &&
            d.timestamp == c.timestamp))) ++ [Cell.mk s p ts v]).filter
        (fun c => c.subject == s && c.predicate == p) = [Cell.mk s p ts v]
    rw [List.filter_append]
    rw [filter_subject_predicate_nil
      (fun c hc => not_key_of_filter_excluded (List.mem_filter.mp hc).1)]
    simp
  | false =>
    show ((db.filter (fun c => !(c.subject == s && List.contains [p] c.predicate))).filter
        (fun c => !(List.any [Cell.mk s p ts v] (fun d =>
          d.subject == c.subject && d.predicate == c.predicate &&
            d.timestamp == c.timestamp))) ++ [Cell.mk s p ts v]).filter
        (fun c => c.subject == s && c.predicate == p) = [Cell.mk s p ts v]
    rw [List.filter_append]
    rw [filter_subject_predicate_nil
      (fun c hc => not_key_of_filter_excluded (List.mem_filter.mp hc).1)]
    simp

/-- C8: absence is signalled through sentinel return values, never raised:
`Resolve` of an absent predicate returns `(none, 0)`, `ReadBlob` of an
unknown hash returns `none` and `BlobExists` of it returns `false`. -/
theorem absent_data_sentinels (db : List Cell) (s p : String)
    (blobs : List (String × String)) (h : String)
    (h1 : ∀ c ∈ db, ¬(c.subject = s ∧ c.predicate = p))
    (h2 : blobs.lookup h = none) :
    Resolve db s p = (none, 0) ∧ ReadBlob blobs h = none ∧ BlobExists blobs h = false := by
  refine ⟨?_, h2, ?_⟩
  · have hv : VersionsOf db s p = [] := by
      rw [VersionsOf]; exact filter_subject_predicate_nil h1
    rw [Resolve, NewestVersion, hv]
    rfl
  · rw [BlobExists, h2]
    rfl

/-- Witness for C8 at the empty store and blob table. -/
theorem absent_data_sentinels_witness :
    Resolve [] "aff4:/row" "metadata:a" = (none, 0) ∧
      ReadBlob [] "e3b0c442" = none ∧ BlobExists [] "e3b0c442" = false :=
  absent_data_sentinels [] "aff4:/row" "metadata:a" [] "e3b0c442" (by simp) rfl

/-- C5: a lock on `s` live until `t0 + lease` blocks every second
acquisition attempt made at any time before that expiry with
`LockHeldError`, while an attempt at or after the expiry succeeds and the
new lock's absolute expiry is the attempt time plus its own lease
duration. -/
theorem DBSubjectLock_mutual_exclusion (locks : List (String × Int)) (s : String)
    (t0 lease t newLease : Int) (hl : locks.lookup s = some (t0 + lease)) :
    (t < t0 + lease → DBSubjectLock locks s t newLease = .error ()) ∧
    (t0 + lease ≤ t →
      DBSubjectLock locks s t newLease =
        .ok (⟨s, t, t + newLease⟩,
          (s, t + newLease) :: locks.eraseP (fun q => q.1 == s))) := by
  constructor
  · intro ht
    simp [DBSubjectLock, hl, ht]
  · intro ht
    simp [DBSubjectLock, hl, not_lt.mpr ht]

/-- Witness for C5: a lock held until `150` blocks an attempt at `120` and
yields to an attempt at `160`, which expires at `160 + 70`. -/
theorem DBSubjectLock_mutual_exclusion_witness :
    DBSubjectLock [("aff4:/leasetest", 150)] "aff4:/leasetest" 120 50 = .error () ∧
      DBSubjectLock [("aff4:/leasetest", 150)] "aff4:/leasetest" 160 70 =
        .ok (⟨"aff4:/leasetest", 160, 230⟩, [("aff4:/leasetest", 230)]) :=
  ⟨(DBSubjectLock_mutual_exclusion [("aff4:/leasetest", 150)] "aff4:/leasetest" 100 50 120 50
      (by decide)).1 (by decide),
    (DBSubjectLock_mutual_exclusion [("aff4:/leasetest", 150)] "aff4:/leasetest" 100 50 160 70
      (by decide)).2 (by decide)⟩

/-- C9: on a lock acquired at `t0`, `UpdateLease(d)` sets the absolute
expiry to `t0 + d` — measured from the acquisition time, not from the time
of the `UpdateLease` call — and `CheckLease` afterwards reports that expiry
minus the current time. -/
theorem UpdateLease_from_acquisition (locks locks' : List (String × Int))
    (lk : SubjectLock) (s : String) (t0 lease d now : Int)
    (h : DBSubjectLock locks s t0 lease = .ok (lk, locks')) :
    (UpdateLease lk d).expires = t0 + d ∧
      CheckLease (UpdateLease lk d) now = (t0 + d) - now := by
  have hlk : lk = ⟨s, t0, t0 + lease⟩ := by
    rw [DBSubjectLock] at h
    cases hm : locks.lookup s with
    | some e =>
      simp only [hm] at h
      by_cases hlt : t0 < e
      · rw [if_pos hlt] at h
        exact Except.noConfusion h
      · rw [if_neg hlt] at h
        simp only [Except.ok.injEq, Prod.mk.injEq] at h
        exact h.1.symm
    | none =>
      simp only [hm] at h
      simp only [Except.ok.injEq, Prod.mk.injEq] at h
      exact h.1.symm
  subst hlk
  exact ⟨rfl, rfl⟩

/-- Witness for C9: a lock acquired at `100` with lease `60`, its lease
updated to `90`, expires at `100 + 90` whatever the current time. -/
theorem UpdateLease_from_acquisition_witness :
    (UpdateLease (SubjectLock.mk "aff4:/leaseexpiretest" 100 160) 90).expires = 100 + 90 ∧
      CheckLease (UpdateLease (SubjectLock.mk "aff4:/leaseexpiretest" 100 160) 90) 120 =
        (100 + 90) - 120 :=
  UpdateLease_from_acquisition [] [("aff4:/leaseexpiretest", 160)]
    (SubjectLock.mk "aff4:/leaseexpiretest" 100 160) "aff4:/leaseexpiretest" 100 60 90 120 rfl

/-- The flush loop is the same as issuing each queued operation directly,
in enqueue order. -/
theorem FlushOps_eq_DirectApply (ops : List PoolOp) :
    ∀ db : List Cell, FlushOps ops db = DirectApply db ops := by
  induction ops with
  | nil => intro db; rfl
  | cons op rest ih => intro db; exact ih (ApplyOp db op)

/-- Queuing operations never touches the store. -/
theorem foldl_enqueue_db (ops : List PoolOp) :
    ∀ st : PoolState, (ops.foldl Enqueue st).db = st.db := by
  induction ops with
  | nil => intro st; rfl
  | cons op rest ih => intro st; exact ih (Enqueue st op)

/-- Queuing operations appends them to the pool's buffer in order. -/
theorem foldl_enqueue_pool (ops : List PoolOp) :
    ∀ st : PoolState, (ops.foldl Enqueue st).pool = st.pool ++ ops := by
  induction ops with
  | nil => intro st; rw [List.append_nil]; rfl
  | cons op rest ih =>
    intro st
    rw [List.foldl_cons, ih (Enqueue st op)]
    show (st.pool ++ [op]) ++ rest = st.pool ++ (op :: rest)
    rw [List.append_assoc]
    rfl

/-- C6: operations queued on a mutation pool are not observable through
`Resolve` before `Flush()` — the store is untouched — and after `Flush()`
the store equals what issuing the same operations directly against the
`DataStore`, in enqueue order, would have produced. -/
theorem MutationPool_isolation_and_flush (st : PoolState) (ops : List PoolOp)
    (s p : String) :
    Resolve (ops.foldl Enqueue st).db s p = Resolve st.db s p ∧
      (Flush (ops.foldl Enqueue st)).db = DirectApply st.db (st.pool ++ ops) := by
  constructor
  · rw [foldl_enqueue_db]
  · show FlushOps (ops.foldl Enqueue st).pool (ops.foldl Enqueue st).db = _
    rw [foldl_enqueue_db, foldl_enqueue_pool, FlushOps_eq_DirectApply]

/-- C4 counterexample: with only the "query" privilege forbidden (read is
granted), a `ScanAttribute` call over the non-index predicate `aff4:hash`
is still denied — the conformance test
`testScanAttributeRequiresQueryAccess` pins this — so the claim's clause
that every read call restricted to non-index predicates succeeds with only
read privilege is false for `ScanAttribute`. -/
theorem ScanAttribute_non_index_denied :
    IsNamePrefix "index:" "aff4:hash" = false ∧
      ScanAttributeChecked ['q'] [] "aff4:/" "aff4:hash" none none = .error () := by
  constructor
  · decide
  · rfl

/-- C4 (amended): when the caller lacks the "query" privilege but holds
"read", every `Resolve`, `ResolveMulti`, `ResolvePrefix` and
`MultiResolvePrefix` call naming at least one `index:`-namespaced
predicate or name start fails whole with `AccessDenied` (an error carries
no partial results), and the same call restricted to non-index predicates
succeeds; `ScanAttribute`, however, always requires the "query" privilege
and is denied even for non-index predicates. -/
theorem index_reads_require_query (forbidden : List Char) (db : List Cell)
    (s spre : String) (subjects : List String) (preds pres : List String) (p q : String)
    (ts : TimestampSpec) (limit : Option Nat) (afterUrn : Option String)
    (maxRecords : Option Nat)
    (hq : forbidden.contains 'q' = true) (hr : forbidden.contains 'r' = false) :
    (IsNamePrefix "index:" p = true → ResolveChecked forbidden db s p = .error ()) ∧
    (IsNamePrefix "index:" p = false →
      ResolveChecked forbidden db s p = .ok (Resolve db s p)) ∧
    (RequiresQuery preds = true →
      ResolveMultiChecked forbidden db s preds limit = .error ()) ∧
    (RequiresQuery preds = false →
      ResolveMultiChecked forbidden db s preds limit = .ok (ResolveMulti db s preds limit)) ∧
    (IsNamePrefix "index:" q = true →
      ResolvePrefixChecked forbidden db s q ts limit = .error ()) ∧
    (IsNamePrefix "index:" q = false →
      ResolvePrefixChecked forbidden db s q ts limit = .ok (ResolvePrefix db s q ts limit)) ∧
    (RequiresQuery pres = true →
      MultiResolvePrefixChecked forbidden db subjects pres ts limit = .error ()) ∧
    (RequiresQuery pres = false →
      MultiResolvePrefixChecked forbidden db subjects pres ts limit =
        .ok (MultiResolvePrefix db subjects pres ts limit)) ∧
    ScanAttributeChecked forbidden db spre p afterUrn maxRecords = .error () := by
  have hq' : 'q' ∈ forbidden := by simpa using hq
  have hr' : 'r' ∉ forbidden := by simpa using hr
  refine ⟨fun h => ?_, fun h => ?_, fun h => ?_, fun h => ?_, fun h => ?_, fun h => ?_,
    fun h => ?_, fun h => ?_, ?_⟩
  · simp [ResolveChecked, ReadDenied, RequiresQuery, hq, hr, hq', hr', h]
  · simp [ResolveChecked, ReadDenied, RequiresQuery, hq, hr, hq', hr', h]
  · simp [ResolveMultiChecked, ReadDenied, hq, hr, hq', hr', h]
  · simp [ResolveMultiChecked, ReadDenied, hq, hr, hq', hr', h]
  · simp [ResolvePrefixChecked, ReadDenied, RequiresQuery, hq, hr, hq', hr', h]
  · simp [ResolvePrefixChecked, ReadDenied, RequiresQuery, hq, hr, hq', hr', h]
  · simp [MultiResolvePrefixChecked, ReadDenied, hq, hr, hq', hr', h]
  · simp [MultiResolvePrefixChecked, ReadDenied, hq, hr, hq', hr', h]
  · simp [ScanAttributeChecked, hq, hr, hq', hr']

/-- Witness for C4 (amended) at the test suite's inputs: only "query" is
forbidden; the index-namespaced calls are denied, the non-index ones
succeed, and `ScanAttribute` is denied even on `aff4:hash`. -/
theorem index_reads_require_query_witness :
    ResolveMultiChecked ['q'] [] "aff4:/row:foo" ["task:00000001", "index:dir/foo"] none =
        .error () ∧
      ResolveMultiChecked ['q'] [] "aff4:/row:foo" ["task:00000001"] none =
        .ok (ResolveMulti [] "aff4:/row:foo" ["task:00000001"] none) ∧
      MultiResolvePrefixChecked ['q'] [] ["aff4:/row:foo"] ["index:"] .newest none =
        .error () ∧
      ScanAttributeChecked ['q'] [] "aff4:/" "aff4:hash" none none = .error () :=
  ⟨(index_reads_require_query ['q'] [] "aff4:/row:foo" "aff4:/" []
      ["task:00000001", "index:dir/foo"] [] "metadata:a" "metadata:" .newest none none none
      rfl rfl).2.2.1 (by decide),
    (index_reads_require_query ['q'] [] "aff4:/row:foo" "aff4:/" [] ["task:00000001"] []
      "metadata:a" "metadata:" .newest none none none rfl rfl).2.2.2.1 (by decide),
    (index_reads_require_query ['q'] [] "aff4:/row:foo" "aff4:/" ["aff4:/row:foo"] []
      ["index:"] "metadata:a" "metadata:" .newest none none none rfl rfl).2.2.2.2.2.2.1
      (by decide),
    (index_reads_require_query ['q'] [] "aff4:/row:foo" "aff4:/" [] [] [] "aff4:hash"
      "metadata:" .newest none none none rfl rfl).2.2.2.2.2.2.2.2⟩

/-- With a limit, one subject's rows are the unlimited rows truncated to
the limit. -/
theorem ResolvePrefixMany_length_limit (db : List Cell) (su : String)
    (pres : List String) (ts : TimestampSpec) (k : Nat) :
    (ResolvePrefixMany db su pres ts (some k)).length =
      min k (ResolvePrefixMany db su pres ts none).length := by
  simp [ResolvePrefixMany]

/-- The total number of rows `MultiResolvePrefix` returns under a limit:
the limit caps the global total across subjects, consumed in subject
iteration order. -/
theorem MultiResolvePrefix_total_length (db : List Cell) (pres : List String)
    (ts : TimestampSpec) :
    ∀ (subjects : List String) (k : Nat),
      ((MultiResolvePrefix db subjects pres ts (some k)).map (fun r => r.2.length)).sum =
        min k ((subjects.map
          (fun su => (ResolvePrefixMany db su pres ts none).length)).sum) := by
  intro subjects
  induction subjects with
  | nil => intro k; simp [MultiResolvePrefix]
  | cons su rest ih =>
    intro k
    rcases Nat.eq_zero_or_pos k with hk | hk
    · subst hk
      simp [MultiResolvePrefix]
    · have hk0 : ¬((some k : Option Nat) = some 0) := by
        simp
        omega
      rw [MultiResolvePrefix, if_neg hk0]
      simp only [Option.map_some']
      have hlen := ResolvePrefixMany_length_limit db su pres ts k
      by_cases hemp : (ResolvePrefixMany db su pres ts (some k)).isEmpty
      · rw [if_pos hemp]
        have h0 : (ResolvePrefixMany db su pres ts (some k)).length = 0 := by
          rw [List.isEmpty_iff.mp hemp]
          rfl
        rw [h0, Nat.sub_zero, ih k, List.map_cons, List.sum_cons]
        omega
      · rw [if_neg hemp]
        rw [List.map_cons, List.sum_cons, ih (k - (ResolvePrefixMany db su pres ts (some k)).length),
          hlen, List.map_cons, List.sum_cons]
        omega

/-- C7: over subjects that each hold `M` cells matching the requested name
starts, `MultiResolvePrefix` with `limit = K` returns `min K (N * M)` rows
in total across all `N` subjects: a single global cap, not a per-subject
one. -/
theorem MultiResolvePrefix_global_limit (db : List Cell) (subjects : List String)
    (pres : List String) (ts : TimestampSpec) (bigK bigN bigM : Nat)
    (hN : subjects.length = bigN)
    (hM : ∀ su ∈ subjects, (ResolvePrefixMany db su pres ts none).length = bigM) :
    ((MultiResolvePrefix db subjects pres ts (some bigK)).map
        (fun r => r.2.length)).sum = min bigK (bigN * bigM) := by
  rw [MultiResolvePrefix_total_length]
  congr 1
  subst hN
  induction subjects with
  | nil => simp
  | cons su rest ih =>
    rw [List.map_cons, List.sum_cons, hM su (List.mem_cons_self _ _),
      ih (fun x hx => hM x (List.mem_cons_of_mem _ hx)), List.length_cons]
    ring

/-- Witness for C1 at a store whose versions were written in jumbled
timestamp order. -/
theorem ResolvePrefix_all_timestamps_decreasing_witness :
    (((ResolvePrefix
          [Cell.mk "aff4:/row" "metadata:p1" 200 "b", Cell.mk "aff4:/row" "metadata:p1" 100 "a",
            Cell.mk "aff4:/row" "metadata:p2" 150 "c", Cell.mk "aff4:/row" "metadata:p1" 300 "d"]
          "aff4:/row" "metadata:" .all none).filter
        (fun r => r.1 == "metadata:p1")).map (fun r => r.2.2)).Pairwise (· > ·) ∧
    (("metadata:p1", "d", (300 : Int)) ∈ ResolvePrefix
          [Cell.mk "aff4:/row" "metadata:p1" 200 "b", Cell.mk "aff4:/row" "metadata:p1" 100 "a",
            Cell.mk "aff4:/row" "metadata:p2" 150 "c", Cell.mk "aff4:/row" "metadata:p1" 300 "d"]
          "aff4:/row" "metadata:" .all none ↔
      (Cell.mk "aff4:/row" "metadata:p1" 300 "d" ∈
          [Cell.mk "aff4:/row" "metadata:p1" 200 "b", Cell.mk "aff4:/row" "metadata:p1" 100 "a",
            Cell.mk "aff4:/row" "metadata:p2" 150 "c", Cell.mk "aff4:/row" "metadata:p1" 300 "d"] ∧
        IsNamePrefix "metadata:" "metadata:p1" = true)) :=
  ⟨(ResolvePrefix_all_timestamps_decreasing
      [Cell.mk "aff4:/row" "metadata:p1" 200 "b", Cell.mk "aff4:/row" "metadata:p1" 100 "a",
        Cell.mk "aff4:/row" "metadata:p2" 150 "c", Cell.mk "aff4:/row" "metadata:p1" 300 "d"]
      "aff4:/row" "metadata:" "metadata:p1" (by decide)).1,
    (ResolvePrefix_all_timestamps_decreasing
      [Cell.mk "aff4:/row" "metadata:p1" 200 "b", Cell.mk "aff4:/row" "metadata:p1" 100 "a",
        Cell.mk "aff4:/row" "metadata:p2" 150 "c", Cell.mk "aff4:/row" "metadata:p1" 300 "d"]
      "aff4:/row" "metadata:" "metadata:p1" (by decide)).2 "d" 300⟩

/-- Witness for C2 at the spec's own example: history `("2",100), ("3",200)`
then `("4",150)`. -/
theorem MultiSet_replace_semantics_witness :
    MultiSet
        [Cell.mk "aff4:/row:foo" "aff4:stored" 100 "2",
          Cell.mk "aff4:/row:foo" "aff4:stored" 200 "3"]
        "aff4:/row:foo" [("aff4:stored", [("4", 150)])] [] false =
      [Cell.mk "aff4:/row:foo" "aff4:stored" 100 "2",
        Cell.mk "aff4:/row:foo" "aff4:stored" 200 "3"] ++
        [Cell.mk "aff4:/row:foo" "aff4:stored" 150 "4"] ∧
    (ResolvePrefix (MultiSet
        [Cell.mk "aff4:/row:foo" "aff4:stored" 100 "2",
          Cell.mk "aff4:/row:foo" "aff4:stored" 200 "3"]
        "aff4:/row:foo" [("aff4:stored", [("4", 150)])] [] true)
        "aff4:/row:foo" "aff4:stored" .all none).filter (fun r => r.1 == "aff4:stored") =
      [("aff4:stored", "4", 150)] :=
  ⟨(MultiSet_replace_semantics
      [Cell.mk "aff4:/row:foo" "aff4:stored" 100 "2",
        Cell.mk "aff4:/row:foo" "aff4:stored" 200 "3"]
      "aff4:/row:foo" "aff4:stored" "4" 150).1 (by decide),
    (MultiSet_replace_semantics
      [Cell.mk "aff4:/row:foo" "aff4:stored" 100 "2",
        Cell.mk "aff4:/row:foo" "aff4:stored" 200 "3"]
      "aff4:/row:foo" "aff4:stored" "4" 150).2⟩

/-- Witness for C7: two subjects with two matching cells each, limit `3`,
three rows in total. -/
theorem MultiResolvePrefix_global_limit_witness :
    ((MultiResolvePrefix
        [Cell.mk "a" "m:1" 1 "x", Cell.mk "a" "m:2" 2 "y",
          Cell.mk "b" "m:1" 3 "z", Cell.mk "b" "m:2" 4 "w"]
        ["a", "b"] ["m:"] .newest (some 3)).map (fun r => r.2.length)).sum =
      min 3 (2 * 2) :=
  MultiResolvePrefix_global_limit
    [Cell.mk "a" "m:1" 1 "x", Cell.mk "a" "m:2" 2 "y",
      Cell.mk "b" "m:1" 3 "z", Cell.mk "b" "m:2" 4 "w"]
    ["a", "b"] ["m:"] .newest 3 2 2 rfl (by decide)

end Grr
